import Mathlib

/-!
Shallow embedding of the HTML extraction and normalization pipeline of the
LinkedIn jobs scraper (src/index.js).  Strings are modelled as Lean `String`
(lists of characters via `String.data`); JavaScript `null`/`undefined` string
arguments are modelled as `Option String` with `none` for the absent value.
Regular-expression matches of the concrete patterns used by the code are
modelled by dedicated scanning functions that follow JavaScript's
leftmost-match, greedy-with-backtracking semantics for those patterns.
-/

namespace Scraper

/-- The character class of JavaScript's regex `\s` and of `String.prototype.trim`:
space, tab, LF, VT, FF, CR, NBSP, and the Unicode space separators. -/
def isJsWhitespace (c : Char) : Bool :=
  let n := c.toNat
  n = 0x20 || n = 0x09 || n = 0x0a || n = 0x0b || n = 0x0c || n = 0x0d ||
  n = 0xa0 || n = 0x1680 || (0x2000 <= n && n <= 0x200a) ||
  n = 0x2028 || n = 0x2029 || n = 0x202f || n = 0x205f || n = 0x3000 || n = 0xfeff

/-- JavaScript `String.prototype.trim` on a character list: drop the leading and
trailing whitespace. -/
def jsTrim (cs : List Char) : List Char :=
  ((cs.dropWhile isJsWhitespace).reverse.dropWhile isJsWhitespace).reverse

/-- Fuel-driven decimal rendering of a natural number, most significant digit
first, as JavaScript's `Number.prototype.toString` produces for a nonnegative
integer (no leading zeros, `0` renders as "0"). -/
def natToDecCharsAux : Nat → Nat → List Char → List Char
  | 0, _, acc => acc
  | fuel + 1, n, acc =>
    if n < 10 then Nat.digitChar n :: acc
    else natToDecCharsAux fuel (n / 10) (Nat.digitChar (n % 10) :: acc)

/-- Decimal digit characters of `n` (JavaScript `n.toString()` for `n ≥ 0`). -/
def natToDecChars (n : Nat) : List Char :=
  natToDecCharsAux (n + 1) n []

/-- Wrap an integer to JavaScript's 32-bit signed range, as the bitwise
operators (`<< 5`, `& hash`) in `stringToHash` do. -/
def toInt32 (n : Int) : Int := (n + 2 ^ 31) % 2 ^ 32 - 2 ^ 31

/-- One loop iteration of `stringToHash` (src/index.js lines 625-629):
`hash = ((hash << 5) - hash) + char; hash = hash & hash;` on a 32-bit value. -/
def hashStep (hash : Int) (code : Nat) : Int :=
  toInt32 (toInt32 (hash * 32) - hash + (code : Int))

/-- UTF-16 code units of a character, as JavaScript's `charCodeAt` walks a
string (astral characters contribute a surrogate pair). -/
def utf16Units (c : Char) : List Nat :=
  if c.toNat < 0x10000 then [c.toNat]
  else
    let v := c.toNat - 0x10000
    [0xD800 + v / 0x400, 0xDC00 + v % 0x400]

/-- `stringToHash` (src/index.js lines 623-631): polynomial rolling hash over
the UTF-16 code units, wrapped to 32 bits each step, then `Math.abs`. -/
def stringToHash (cs : List Char) : Nat :=
  (((cs.map utf16Units).flatten).foldl hashStep 0).natAbs

/-- PRIORITY 5 of `extractNumericId` (src/index.js lines 616-619): decimal
string of `Math.abs(stringToHash(str))`, truncated by `substring(0, 10)`. -/
def hashFallback (str : List Char) : List Char :=
  (natToDecChars (stringToHash str)).take 10

/-- The literal prefix of the two job-view URL patterns. -/
def jobsViewPat : List Char := "jobs/view/".data

/-- The literal prefix of the `jobId=(\d+)` pattern. -/
def jobIdPat : List Char := "jobId=".data

/-- Backtracking tail of the pattern `[^\/]*-(\d+)` inside a slash-free
segment: the capture group of the LAST hyphen that is followed by at least one
digit (greedy `[^\/]*` backtracks from the right), as the maximal digit run
after that hyphen. -/
def lastHyphenDigits : List Char → Option (List Char)
  | [] => none
  | c :: cs =>
    if c = '-' then
      match lastHyphenDigits cs with
      | some r => some r
      | none =>
        let run := cs.takeWhile Char.isDigit
        if run.isEmpty then none else some run
    else lastHyphenDigits cs

/-- Leftmost match of `/jobs\/view\/[^\/]*-(\d+)/` (src/index.js line 573),
returning the capture group: scan start positions left to right; at each
occurrence of the literal `jobs/view/`, the tail matches within the following
slash-free segment. -/
def matchJobsViewSlug : List Char → Option (List Char)
  | [] => none
  | c :: cs =>
    if jobsViewPat.isPrefixOf (c :: cs) then
      match lastHyphenDigits (((c :: cs).drop 10).takeWhile (fun x => x ≠ '/')) with
      | some r => some r
      | none => matchJobsViewSlug cs
    else matchJobsViewSlug cs

/-- Leftmost match of `/jobs\/view\/(\d+)/` (src/index.js line 579), returning
the capture group: the maximal digit run right after the literal, nonempty. -/
def matchJobsViewDirect : List Char → Option (List Char)
  | [] => none
  | c :: cs =>
    if jobsViewPat.isPrefixOf (c :: cs) then
      let run := ((c :: cs).drop 10).takeWhile Char.isDigit
      if run.isEmpty then matchJobsViewDirect cs else some run
    else matchJobsViewDirect cs

/-- Leftmost match of `/jobId=(\d+)/` (src/index.js line 589), returning the
capture group. -/
def matchJobIdParam : List Char → Option (List Char)
  | [] => none
  | c :: cs =>
    if jobIdPat.isPrefixOf (c :: cs) then
      let run := ((c :: cs).drop 6).takeWhile Char.isDigit
      if run.isEmpty then matchJobIdParam cs else some run
    else matchJobIdParam cs

/-- Leftmost match of `/\/(\d+)(?:\?|$)/` (src/index.js line 590), returning
the capture group: a slash, a nonempty digit run, then either a question mark
or the end of the string. -/
def matchSlashDigitsEnd : List Char → Option (List Char)
  | [] => none
  | c :: cs =>
    if c = '/' then
      let run := cs.takeWhile Char.isDigit
      if run.isEmpty then matchSlashDigitsEnd cs
      else
        match cs.drop run.length with
        | [] => some run
        | '?' :: _ => some run
        | _ => matchSlashDigitsEnd cs
    else matchSlashDigitsEnd cs

/-- All maximal digit runs of the string (`str.match(/\d+/g)`), keeping only
the LAST one: accumulator `cur` holds the current run reversed, `best` the
last completed run. -/
def lastDigitRunAux : List Char → Option (List Char) → List Char → Option (List Char)
  | cur, best, [] => if cur.isEmpty then best else some cur.reverse
  | cur, best, c :: cs =>
    if c.isDigit then lastDigitRunAux (c :: cur) best cs
    else lastDigitRunAux [] (if cur.isEmpty then best else some cur.reverse) cs

/-- The last maximal run of digits in the string, if any (PRIORITY 4 of
`extractNumericId`, src/index.js lines 607-610). -/
def lastDigitRun (cs : List Char) : Option (List Char) :=
  lastDigitRunAux [] none cs

/-- PRIORITY 1 of `extractNumericId` (src/index.js lines 571-583): when the
`jobLink` argument is truthy, try the slug pattern then the direct pattern on
it. -/
def linkId (jobLink : Option String) : Option (List Char) :=
  match jobLink with
  | none => none
  | some l =>
    if l = "" then none
    else
      match matchJobsViewSlug l.data with
      | some r => some r
      | none => matchJobsViewDirect l.data

/-- The body of `extractNumericId` past its falsy-input guard (src/index.js
lines 568-619): the ordered precedence chain over the candidate characters
`str` and the optional `jobLink`.  Every branch yields a character list. -/
def resolveId (str : List Char) (jobLink : Option String) : List Char :=
  match linkId jobLink with
  | some r => r
  | none =>
    match matchJobsViewSlug str with
    | some r => r
    | none =>
      match matchJobsViewDirect str with
      | some r => r
      | none =>
        match matchJobIdParam str with
        | some r => r
        | none =>
          match matchSlashDigitsEnd str with
          | some r => r
          | none =>
            if str.all Char.isDigit ∧ 5 ≤ str.length then str
            else
              match lastDigitRun str with
              | some r => if 5 ≤ r.length then r else hashFallback str
              | none => hashFallback str

/-- `extractNumericId(input, jobLink = null)` (src/index.js lines 565-620):
`none` models a `null`/`undefined` argument; a falsy input (absent or the
empty string) returns `null` before the permalink is consulted. -/
def extractNumericId (input : Option String) (jobLink : Option String := none) :
    Option String :=
  match input with
  | none => none
  | some s =>
    if s = "" then none
    else some (String.mk (resolveId s.data jobLink))

/-- One pass of `replace(/\s+/g, ' ')`: each maximal run of whitespace becomes
a single space.  The flag records whether the previous character was part of a
whitespace run. -/
def collapseWsAux : Bool → List Char → List Char
  | _, [] => []
  | prevWs, c :: cs =>
    if isJsWhitespace c then
      if prevWs then collapseWsAux true cs else ' ' :: collapseWsAux true cs
    else c :: collapseWsAux false cs

/-- `replace(/\s+/g, ' ')` on a character list. -/
def collapseWs (cs : List Char) : List Char := collapseWsAux false cs

/-- `cleanText(text)` (src/index.js lines 633-637): `null`/empty input gives
`null`; otherwise trim, collapse whitespace runs to single spaces, and return
`null` if the result is empty. -/
def cleanText (text : Option String) : Option String :=
  match text with
  | none => none
  | some s =>
    if s = "" then none
    else
      let cleaned := collapseWs (jsTrim s.data)
      if cleaned.isEmpty then none else some (String.mk cleaned)

/-- The salary record built by `extractSalary` (src/index.js lines 952-965);
keys that a branch does not populate are `none`. -/
structure SalaryInfo where
  text : String
  min : Option String
  max : Option String
  currency : Option String
  estimated : Bool
  source : String
deriving DecidableEq

/-- The amount sub-pattern `[\d,]+(?:\.\d{2})?` of the salary regex
(src/index.js line 950), applied right after a dollar sign: a nonempty run of
digits/commas, greedily extended by a cents group of exactly two digits.
Returns the matched characters and the remainder. -/
def amountAfterDollar (cs : List Char) : Option (List Char × List Char) :=
  let run := cs.takeWhile (fun c => c.isDigit || c = ',')
  if run.isEmpty then none
  else
    match cs.drop run.length with
    | '.' :: d1 :: d2 :: rest2 =>
      if d1.isDigit && d2.isDigit then some (run ++ ['.', d1, d2], rest2)
      else some (run, cs.drop run.length)
    | _ => some (run, cs.drop run.length)

/-- The optional range tail `(?:\s*-\s*\$([\d,]+(?:\.\d{2})?))?` of the salary
regex: whitespace, a hyphen, whitespace, a dollar sign, then a second amount
(the capture group, without the dollar sign). -/
def rangeTail (cs : List Char) : Option (List Char) :=
  match cs.dropWhile isJsWhitespace with
  | '-' :: rest =>
    match rest.dropWhile isJsWhitespace with
    | '$' :: rest2 =>
      match amountAfterDollar rest2 with
      | some (amt, _) => some amt
      | none => none
    | _ => none
  | _ => none

/-- Leftmost match of `/(\$[\d,]+(?:\.\d{2})?)(?:\s*-\s*\$([\d,]+(?:\.\d{2})?))?/`
(src/index.js line 950): the first capture group (with its dollar sign) and the
optional second capture group. -/
def findSalaryMatch : List Char → Option (List Char × Option (List Char))
  | [] => none
  | c :: cs =>
    if c = '$' then
      match amountAfterDollar cs with
      | some (amt, rest) => some ('$' :: amt, rangeTail rest)
      | none => findSalaryMatch cs
    else findSalaryMatch cs

/-- `replace(/[^\d.]/g, '')` (src/index.js lines 954-955): keep only decimal
digits and periods. -/
def stripToDigitsDots (cs : List Char) : List Char :=
  cs.filter (fun c => c.isDigit || c = '.')

/-- `extractSalary($)` (src/index.js lines 944-969), modelled over the text of
the `.salary` element: `none` when the element is absent; the trimmed text is
matched against the dollar-range pattern, populating `min`/`max`/`currency`
only on a match; an element whose text trims to empty also yields `null`. -/
def extractSalary (salaryElemText : Option String) : Option SalaryInfo :=
  match salaryElemText with
  | none => none
  | some raw =>
    let t := jsTrim raw.data
    if t.isEmpty then none
    else
      match findSalaryMatch t with
      | some (g1, g2) =>
        some { text := String.mk t
               min := some (String.mk (stripToDigitsDots g1))
               max := g2.map (fun m => String.mk (stripToDigitsDots m))
               currency := some "USD"
               estimated := false
               source := "LinkedIn Job Posting" }
      | none =>
        some { text := String.mk t
               min := none
               max := none
               currency := none
               estimated := false
               source := "LinkedIn Job Posting" }

/-- JavaScript `split(',')` on a character list; `cur` is the piece being
accumulated, reversed.  Splitting the empty list yields one empty piece, as in
JavaScript. -/
def splitCommaAux : List Char → List Char → List (List Char)
  | cur, [] => [cur.reverse]
  | cur, c :: cs =>
    if c = ',' then cur.reverse :: splitCommaAux [] cs
    else splitCommaAux (c :: cur) cs

/-- `extractSpecialties($)` (src/index.js lines 500-506), modelled over the
text of the `dt:contains("Specialties") + dd` element: absent element gives
`null`; otherwise `text().trim().split(',').map(s => s.trim()).filter(Boolean)`
— which returns the (possibly empty) array itself. -/
def extractSpecialties (specialtiesText : Option String) : Option (List String) :=
  match specialtiesText with
  | none => none
  | some raw =>
    some (((((splitCommaAux [] (jsTrim raw.data)).map jsTrim).filter
      (fun p => !p.isEmpty)).map String.mk))

/-- JavaScript `a || b` where `a` is a possibly-absent string (an attribute
lookup) and `b` a string: `a` wins when truthy (present and nonempty). -/
def jsOrStr (a : Option String) (b : String) : String :=
  match a with
  | some s => if s = "" then b else s
  | none => b

/-- JavaScript `a || b` where both sides are possibly-absent strings. -/
def jsOrOpt (a : Option String) (b : Option String) : Option String :=
  match a with
  | some s => if s = "" then b else some s
  | none => b

/-- The raw values `parseJobElement` reads off one listing-card element
(src/index.js lines 694-703): `.text()` lookups give strings (empty when the
selector matched nothing), `.attr()` lookups give possibly-absent strings, and
`uuid` stands for the `uuidv4()` call of line 718. -/
structure RawCard where
  dataId : Option String
  rawTitle : String
  rawCompany : String
  rawLocation : String
  rawDateAttr : Option String
  rawDateText : String
  rawLink : Option String
  rawCompanyLink : Option String
  rawLogoDelayed : Option String
  rawLogoSrc : Option String
  hasEasyApply : Bool
  rawInsights : String
  uuid : String
deriving DecidableEq

/-- The job-summary record `parseJobElement` returns (src/index.js lines
721-732). -/
structure Job where
  id : Option String
  title : Option String
  company : Option String
  location : Option String
  date : Option String
  link : Option String
  companyLink : Option String
  companyLogo : Option String
  easyApply : Option Bool
  insights : Option String
deriving DecidableEq

/-- `parseJobElement($, element)` (src/index.js lines 691-733): clean each raw
field, strip the query string from the company link, qualify a relative job
link with the site origin, and resolve the numeric id from
`data-id || jobLink || uuidv4()` with the job link as the priority source. -/
def parseJobElement (card : RawCard) : Job :=
  let rawDate := jsOrStr card.rawDateAttr card.rawDateText
  let rawCompanyLogo := jsOrOpt card.rawLogoDelayed card.rawLogoSrc
  let cleanedCompanyLink :=
    match cleanText card.rawCompanyLink with
    | some l =>
      if l.data.contains '?' then some (String.mk (l.data.takeWhile (fun c => c ≠ '?')))
      else some l
    | none => none
  let jobLink :=
    match cleanText card.rawLink with
    | some l =>
      if "http".data.isPrefixOf l.data then some l
      else some ("https://www.linkedin.com" ++ l)
    | none => none
  let rawId := jsOrStr card.dataId (jsOrStr jobLink card.uuid)
  let numericId := extractNumericId (some rawId) jobLink
  { id := numericId
    title := cleanText (some card.rawTitle)
    company := cleanText (some card.rawCompany)
    location := cleanText (some card.rawLocation)
    date := cleanText (some rawDate)
    link := jobLink
    companyLink := cleanedCompanyLink
    companyLogo := cleanText rawCompanyLogo
    easyApply := if card.hasEasyApply then some true else none
    insights := cleanText (some card.rawInsights) }

/-- JavaScript truthiness of a possibly-absent string field. -/
def truthy : Option String → Bool
  | none => false
  | some s => !(s = "")

/-- The accepted-jobs list of `searchJobs` (src/index.js lines 758-771):
each parsed card is kept only when `job.title && job.company && job.id`, and
the list is then truncated to `config.DEFAULT_RESULTS = 50` entries. -/
def acceptedJobs (cards : List RawCard) : List Job :=
  (((cards.map parseJobElement).filter
    (fun j => truthy j.title && truthy j.company && truthy j.id)).take 50)

/-- A nonempty list of decimal-digit characters: the shape `^\d+$` that every
identifier the resolver returns must have. -/
def digitString (l : List Char) : Prop :=
  l ≠ [] ∧ l.all Char.isDigit = true

lemma takeWhile_all (p : Char → Bool) (l : List Char) :
    (l.takeWhile p).all p = true := by
  rw [List.all_eq_true]
  intro x hx
  exact List.mem_takeWhile_imp hx

lemma digitString_of_run {cs run : List Char}
    (hrun : run = cs.takeWhile Char.isDigit) (hne : run.isEmpty = false) :
    digitString run := by
  refine ⟨?_, ?_⟩
  · intro h
    rw [h] at hne
    simp at hne
  · rw [hrun]
    exact takeWhile_all _ _

lemma lastHyphenDigits_shape : ∀ {cs r : List Char},
    lastHyphenDigits cs = some r → digitString r := by
  intro cs
  induction cs with
  | nil => intro r h; simp [lastHyphenDigits] at h
  | cons c cs ih =>
    intro r h
    simp only [lastHyphenDigits] at h
    split at h
    · split at h
      next heq => cases h; exact ih heq
      next =>
        split at h
        · exact absurd h (by simp)
        next hne =>
          cases h
          exact digitString_of_run rfl (by simpa using hne)
    · exact ih h

lemma matchJobsViewSlug_shape : ∀ {cs r : List Char},
    matchJobsViewSlug cs = some r → digitString r := by
  intro cs
  induction cs with
  | nil => intro r h; simp [matchJobsViewSlug] at h
  | cons c cs ih =>
    intro r h
    simp only [matchJobsViewSlug] at h
    split at h
    · split at h
      next heq => cases h; exact lastHyphenDigits_shape heq
      next => exact ih h
    · exact ih h

lemma matchJobsViewDirect_shape : ∀ {cs r : List Char},
    matchJobsViewDirect cs = some r → digitString r := by
  intro cs
  induction cs with
  | nil => intro r h; simp [matchJobsViewDirect] at h
  | cons c cs ih =>
    intro r h
    simp only [matchJobsViewDirect] at h
    split at h
    · split at h
      · exact ih h
      next hne => cases h; exact digitString_of_run rfl (by simpa using hne)
    · exact ih h

lemma matchJobIdParam_shape : ∀ {cs r : List Char},
    matchJobIdParam cs = some r → digitString r := by
  intro cs
  induction cs with
  | nil => intro r h; simp [matchJobIdParam] at h
  | cons c cs ih =>
    intro r h
    simp only [matchJobIdParam] at h
    split at h
    · split at h
      · exact ih h
      next hne => cases h; exact digitString_of_run rfl (by simpa using hne)
    · exact ih h

lemma matchSlashDigitsEnd_shape : ∀ {cs r : List Char},
    matchSlashDigitsEnd cs = some r → digitString r := by
  intro cs
  induction cs with
  | nil => intro r h; simp [matchSlashDigitsEnd] at h
  | cons c cs ih =>
    intro r h
    simp only [matchSlashDigitsEnd] at h
    split at h
    · split at h
      · exact ih h
      next hne =>
        split at h
        · cases h; exact digitString_of_run rfl (by simpa using hne)
        · cases h; exact digitString_of_run rfl (by simpa using hne)
        · exact ih h
    · exact ih h

lemma lastDigitRunAux_shape : ∀ (cs cur : List Char) (best : Option (List Char)),
    cur.all Char.isDigit = true →
    (∀ b, best = some b → digitString b) →
    ∀ r, lastDigitRunAux cur best cs = some r → digitString r := by
  intro cs
  induction cs with
  | nil =>
    intro cur best hcur hbest r h
    simp only [lastDigitRunAux] at h
    split at h
    · exact hbest r h
    next hne =>
      cases h
      refine ⟨?_, by simpa using hcur⟩
      simpa using fun h => hne (by simp [h])
  | cons c cs ih =>
    intro cur best hcur hbest r h
    simp only [lastDigitRunAux] at h
    split at h
    next hd =>
      refine ih (c :: cur) best ?_ hbest r h
      simp [hcur, hd]
    · refine ih [] _ rfl ?_ r h
      intro b hb
      split at hb
      · exact hbest b hb
      next hne =>
        cases hb
        refine ⟨?_, by simpa using hcur⟩
        simpa using fun h => hne (by simp [h])

lemma lastDigitRun_shape {cs r : List Char} (h : lastDigitRun cs = some r) :
    digitString r :=
  lastDigitRunAux_shape cs [] none rfl (by intro b hb; cases hb) r h

lemma digitChar_isDigit : ∀ n < 10, (Nat.digitChar n).isDigit = true := by decide

lemma natToDecCharsAux_shape : ∀ (fuel n : Nat) (acc : List Char),
    n < fuel → acc.all Char.isDigit = true →
    natToDecCharsAux fuel n acc ≠ [] ∧
      (natToDecCharsAux fuel n acc).all Char.isDigit = true := by
  intro fuel
  induction fuel with
  | zero => intro n acc h; omega
  | succ fuel ih =>
    intro n acc hn hacc
    simp only [natToDecCharsAux]
    split
    next h10 =>
      refine ⟨by simp, ?_⟩
      simp [hacc, digitChar_isDigit n h10]
    next h10 =>
      refine ih (n / 10) _ ?_ ?_
      · have : n / 10 < n := Nat.div_lt_self (by omega) (by omega)
        omega
      · simp [hacc, digitChar_isDigit (n % 10) (Nat.mod_lt _ (by omega))]

lemma natToDecChars_shape (n : Nat) :
    natToDecChars n ≠ [] ∧ (natToDecChars n).all Char.isDigit = true :=
  natToDecCharsAux_shape (n + 1) n [] (by omega) rfl

lemma take_all {p : Char → Bool} {l : List Char} (h : l.all p = true) (n : Nat) :
    (l.take n).all p = true := by
  rw [List.all_eq_true] at h ⊢
  intro x hx
  exact h x ((List.take_sublist n l).mem hx)

lemma hashFallback_shape (str : List Char) : digitString (hashFallback str) := by
  obtain ⟨h1, h2⟩ := natToDecChars_shape (stringToHash str)
  unfold hashFallback
  refine ⟨?_, take_all h2 10⟩
  cases hl : natToDecChars (stringToHash str) with
  | nil => exact absurd hl h1
  | cons c t => simp [hl]

lemma linkId_shape : ∀ {link : Option String} {r : List Char},
    linkId link = some r → digitString r := by
  intro link r h
  match link with
  | none => simp [linkId] at h
  | some l =>
    simp only [linkId] at h
    split at h
    · exact absurd h (by simp)
    · split at h
      next heq => cases h; exact matchJobsViewSlug_shape heq
      next => exact matchJobsViewDirect_shape h

lemma resolveId_shape (str : List Char) (link : Option String) (hne : str ≠ []) :
    digitString (resolveId str link) := by
  unfold resolveId
  split
  next heq => exact linkId_shape heq
  split
  next heq => exact matchJobsViewSlug_shape heq
  split
  next heq => exact matchJobsViewDirect_shape heq
  split
  next heq => exact matchJobIdParam_shape heq
  split
  next heq => exact matchSlashDigitsEnd_shape heq
  split
  next hd => exact ⟨hne, hd.1⟩
  split
  next heq =>
    split
    next => exact lastDigitRun_shape heq
    next => exact hashFallback_shape str
  next => exact hashFallback_shape str

lemma data_ne_nil_of_ne_empty {s : String} (h : s ≠ "") : s.data ≠ [] := by
  intro hd
  exact h (String.ext_iff.2 hd)

/-- C1: for every non-empty candidate string and every permalink argument
(a string or null), `extractNumericId` returns `some` string that is non-empty
and consists only of decimal digits — every precedence branch, including the
32-bit polynomial-hash fallback, yields a digit string. -/
theorem extractNumericId_always_digit_string (s : String) (link : Option String)
    (h : s ≠ "") :
    ∃ r : String, extractNumericId (some s) link = some r ∧
      r.data ≠ [] ∧ r.data.all Char.isDigit = true := by
  obtain ⟨h1, h2⟩ := resolveId_shape s.data link (data_ne_nil_of_ne_empty h)
  exact ⟨String.mk (resolveId s.data link), by simp [extractNumericId, h], h1, h2⟩

/-- Witness for C1 at a concrete unidentifiable input that exercises the
hash fallback. -/
theorem extractNumericId_always_digit_string_witness :
    ∃ r : String, extractNumericId (some "b7e2a9c4-uuid") none = some r ∧
      r.data ≠ [] ∧ r.data.all Char.isDigit = true :=
  extractNumericId_always_digit_string "b7e2a9c4-uuid" none (by decide)

/-- C10: when the candidate input is null/undefined (`none`) or the empty
string, `extractNumericId` returns null immediately, whatever the `jobLink`
argument holds — the permalink is never consulted in that case. -/
theorem extractNumericId_falsy_candidate (link : Option String) :
    extractNumericId none link = none ∧ extractNumericId (some "") link = none := by
  constructor
  · rfl
  · simp [extractNumericId]

/-- The job-view permalink of the slug-precedence claim. -/
def slugPermalink : String :=
  "https://www.linkedin.com/jobs/view/software-engineer-at-acme-3796675744"

/-- C3 counterexample: with the slug permalink given, the empty candidate
value still yields null, not "3796675744" — so the permalink digits do not win
"regardless of what the candidate is". -/
theorem slug_precedence_cex :
    extractNumericId (some "") (some slugPermalink) = none ∧
      (none : Option String) ≠ some "3796675744" := by
  constructor
  · simp [extractNumericId]
  · decide

/-- C3 amended: for every NON-EMPTY candidate value, the trailing digits of
the slug permalink win over anything in the candidate. -/
theorem slug_precedence_nonempty_candidate (cand : String) (h : cand ≠ "") :
    extractNumericId (some cand) (some slugPermalink) = some "3796675744" := by
  simp only [extractNumericId, if_neg h]
  rfl

/-- Witness for the amended slug-precedence theorem at a candidate holding an
unrelated digit run. -/
theorem slug_precedence_nonempty_candidate_witness :
    extractNumericId (some "urn:li:jobPosting:1111122222") (some slugPermalink) =
      some "3796675744" :=
  slug_precedence_nonempty_candidate "urn:li:jobPosting:1111122222" (by decide)

/-- C7: when the candidate matches none of the URL shapes and is not itself
purely numeric, the LAST maximal digit run is selected, provided it is at
least 5 digits long. -/
theorem extractNumericId_last_run (s : String) (r : List Char)
    (hne : s ≠ "")
    (h1 : matchJobsViewSlug s.data = none)
    (h2 : matchJobsViewDirect s.data = none)
    (h3 : matchJobIdParam s.data = none)
    (h4 : matchSlashDigitsEnd s.data = none)
    (h5 : ¬(s.data.all Char.isDigit = true ∧ 5 ≤ s.data.length))
    (h6 : lastDigitRun s.data = some r)
    (h7 : 5 ≤ r.length) :
    extractNumericId (some s) none = some (String.mk r) := by
  have hres : resolveId s.data none = r := by
    simp only [resolveId, linkId, h1, h2, h3, h4, h6, if_neg h5, if_pos h7]
  simp [extractNumericId, hne, hres]

/-- Witness for C7: the spec's own example selects the last digit run, not
"2" and not "2024". -/
theorem extractNumericId_last_run_witness :
    extractNumericId (some "Software Engineer II 2024 10023456") none =
      some "10023456" :=
  extractNumericId_last_run "Software Engineer II 2024 10023456" "10023456".data
    (by decide) (by decide) (by decide) (by decide) (by decide) (by decide)
    (by decide) (by decide)

lemma beq_j_false {c : Char} (hc : c.isDigit = true) : ('j' == c) = false := by
  cases h : 'j' == c with
  | false => rfl
  | true =>
    have hcj : 'j' = c := eq_of_beq h
    rw [← hcj] at hc
    exact absurd hc (by decide)

lemma jobsViewPat_not_prefix {c : Char} (hc : c.isDigit = true) (cs : List Char) :
    jobsViewPat.isPrefixOf (c :: cs) = false := by
  show List.isPrefixOf ('j' :: "obs/view/".data) (c :: cs) = false
  simp [List.isPrefixOf, beq_j_false hc]

lemma jobIdPat_not_prefix {c : Char} (hc : c.isDigit = true) (cs : List Char) :
    jobIdPat.isPrefixOf (c :: cs) = false := by
  show List.isPrefixOf ('j' :: "obId=".data) (c :: cs) = false
  simp [List.isPrefixOf, beq_j_false hc]

lemma matchJobsViewSlug_none_of_digits : ∀ {cs : List Char},
    cs.all Char.isDigit = true → matchJobsViewSlug cs = none := by
  intro cs
  induction cs with
  | nil => intro _; rfl
  | cons c cs ih =>
    intro h
    simp only [List.all_cons, Bool.and_eq_true] at h
    simp only [matchJobsViewSlug, jobsViewPat_not_prefix h.1]
    simpa using ih h.2

lemma matchJobsViewDirect_none_of_digits : ∀ {cs : List Char},
    cs.all Char.isDigit = true → matchJobsViewDirect cs = none := by
  intro cs
  induction cs with
  | nil => intro _; rfl
  | cons c cs ih =>
    intro h
    simp only [List.all_cons, Bool.and_eq_true] at h
    simp only [matchJobsViewDirect, jobsViewPat_not_prefix h.1]
    simpa using ih h.2

lemma matchJobIdParam_none_of_digits : ∀ {cs : List Char},
    cs.all Char.isDigit = true → matchJobIdParam cs = none := by
  intro cs
  induction cs with
  | nil => intro _; rfl
  | cons c cs ih =>
    intro h
    simp only [List.all_cons, Bool.and_eq_true] at h
    simp only [matchJobIdParam, jobIdPat_not_prefix h.1]
    simpa using ih h.2

lemma matchSlashDigitsEnd_none_of_digits : ∀ {cs : List Char},
    cs.all Char.isDigit = true → matchSlashDigitsEnd cs = none := by
  intro cs
  induction cs with
  | nil => intro _; rfl
  | cons c cs ih =>
    intro h
    simp only [List.all_cons, Bool.and_eq_true] at h
    have hc : ¬(c = '/') := by
      intro he
      rw [he] at h
      exact absurd h.1 (by decide)
    simp only [matchSlashDigitsEnd, if_neg hc]
    exact ih h.2

/-- C2 counterexample: `extractNumericId` can output "123" (from a
`jobId=123` candidate), but re-resolving "123" with no permalink re-hashes it
to "48690" instead of returning it unchanged — the round trip fails for
captured identifiers shorter than 5 digits. -/
theorem extractNumericId_roundtrip_cex :
    extractNumericId (some "jobId=123") none = some "123" ∧
      extractNumericId (some "123") none = some "48690" ∧
      ("48690" : String) ≠ "123" :=
  ⟨by decide, by decide, by decide⟩

/-- C2 amended: resolution is idempotent for every purely numeric identifier
of at least 5 digits — which covers the listing-extraction outputs of the
pure-numeric branch, the last-digit-run branch, and the 10-digit permalink
captures, but not URL captures or hash outputs shorter than 5 digits. -/
theorem extractNumericId_roundtrip_long_ids (s : String)
    (hd : s.data.all Char.isDigit = true) (hl : 5 ≤ s.data.length) :
    extractNumericId (some s) none = some s := by
  have hne : s ≠ "" := by
    intro h
    rw [h] at hl
    exact absurd hl (by decide)
  have hres : resolveId s.data none = s.data := by
    simp only [resolveId, linkId,
      matchJobsViewSlug_none_of_digits hd, matchJobsViewDirect_none_of_digits hd,
      matchJobIdParam_none_of_digits hd, matchSlashDigitsEnd_none_of_digits hd,
      if_pos (And.intro hd hl)]
  simp [extractNumericId, hne, hres]

/-- Witness for amended C2 at the spec's 8-digit purely numeric identifier. -/
theorem extractNumericId_roundtrip_long_ids_witness :
    extractNumericId (some "98765432") none = some "98765432" :=
  extractNumericId_roundtrip_long_ids "98765432" (by decide) (by decide)

/-- C5: `extractSalary` distinguishes absence from unparseability — no salary
element gives null, while an element whose text is non-empty but matches no
dollar-range pattern yields the raw text with none of the numeric fields
populated. -/
theorem extractSalary_absent_vs_unparseable :
    extractSalary none = none ∧
      ∀ raw : String, jsTrim raw.data ≠ [] →
        findSalaryMatch (jsTrim raw.data) = none →
        extractSalary (some raw) =
          some { text := String.mk (jsTrim raw.data), min := none, max := none,
                 currency := none, estimated := false,
                 source := "LinkedIn Job Posting" } := by
  constructor
  · rfl
  · intro raw h1 h2
    have ht : (jsTrim raw.data).isEmpty = false := by
      cases h : (jsTrim raw.data).isEmpty
      · rfl
      · exact absurd (by simpa using h) h1
    simp [extractSalary, ht, h2]

/-- Witness for C5 at the spec's "Not Disclosed" example. -/
theorem extractSalary_absent_vs_unparseable_witness :
    extractSalary (some "Not Disclosed") =
      some { text := "Not Disclosed", min := none, max := none,
             currency := none, estimated := false,
             source := "LinkedIn Job Posting" } :=
  extractSalary_absent_vs_unparseable.2 "Not Disclosed" (by decide) (by decide)

/-- C6 counterexample: on the claim's own cents example the code keeps the
decimal point — `replace(/[^\d.]/g, '')` strips currency symbols and commas
but not periods — so `min` is "95000.00", which is not a digit-only string. -/
theorem extractSalary_cents_cex :
    extractSalary (some "$95,000.00 - $120,000.00") =
      some { text := "$95,000.00 - $120,000.00", min := some "95000.00",
             max := some "120000.00", currency := some "USD",
             estimated := false, source := "LinkedIn Job Posting" } ∧
      ("95000.00" : String).data.all Char.isDigit = false :=
  ⟨by decide, by decide⟩

lemma filter_all (p : Char → Bool) (l : List Char) : (l.filter p).all p = true := by
  rw [List.all_eq_true]
  intro x hx
  exact (List.mem_filter.mp hx).2

/-- C6 amended: for every salary text, the `min`/`max` fields of the returned
record, when non-null, consist only of decimal digits and periods — currency
symbols and commas are stripped, but the decimal point of a cents amount is
retained, so amounts with cents are not digit-only. -/
theorem extractSalary_min_max_digits_dots (raw : String) (info : SalaryInfo)
    (h : extractSalary (some raw) = some info) :
    (∀ m : String, info.min = some m →
        m.data.all (fun c => c.isDigit || c = '.') = true) ∧
    (∀ m : String, info.max = some m →
        m.data.all (fun c => c.isDigit || c = '.') = true) := by
  simp only [extractSalary] at h
  split at h
  · exact absurd h (by simp)
  · split at h
    next g1 g2 heq =>
      cases h
      constructor
      · intro m hm
        cases hm
        exact filter_all _ _
      · intro m hm
        simp only [Option.map_eq_some'] at hm
        obtain ⟨x, _, hx⟩ := hm
        rw [← hx]
        exact filter_all _ _
    next heq =>
      cases h
      refine ⟨?_, ?_⟩ <;> exact fun m hm => nomatch hm

/-- Witness for amended C6: the stripped minimum of a matching range is made
of digits and periods only. -/
theorem extractSalary_min_max_digits_dots_witness :
    ("50000" : String).data.all (fun c => c.isDigit || c = '.') = true :=
  (extractSalary_min_max_digits_dots "$50,000 - $70,000"
    { text := "$50,000 - $70,000", min := some "50000", max := some "70000",
      currency := some "USD", estimated := false,
      source := "LinkedIn Job Posting" }
    (by decide)).1 "50000" rfl

lemma mem_jsTrim {c : Char} {l : List Char} (h : c ∈ jsTrim l) : c ∈ l := by
  unfold jsTrim at h
  rw [List.mem_reverse] at h
  have h2 := List.Sublist.mem h (List.dropWhile_sublist _)
  rw [List.mem_reverse] at h2
  exact List.Sublist.mem h2 (List.dropWhile_sublist _)

lemma jsTrim_eq_nil_of_ws {l : List Char}
    (h : ∀ c ∈ l, isJsWhitespace c = true) : jsTrim l = [] := by
  unfold jsTrim
  rw [List.dropWhile_eq_nil_iff.2 h]
  rfl

lemma splitCommaAux_pieces_ws : ∀ (cs cur : List Char),
    (∀ c ∈ cs, isJsWhitespace c = true ∨ c = ',') →
    (∀ c ∈ cur, isJsWhitespace c = true) →
    ∀ p ∈ splitCommaAux cur cs, ∀ c ∈ p, isJsWhitespace c = true := by
  intro cs
  induction cs with
  | nil =>
    intro cur _ hcur p hp c hc
    simp only [splitCommaAux, List.mem_singleton] at hp
    subst hp
    exact hcur c (List.mem_reverse.mp hc)
  | cons a cs ih =>
    intro cur hcs hcur p hp c hc
    simp only [splitCommaAux] at hp
    split at hp
    · rcases List.mem_cons.mp hp with h | h
      · subst h
        exact hcur c (List.mem_reverse.mp hc)
      · exact ih [] (fun x hx => hcs x (by simp [hx])) (by simp) p h c hc
    next ha =>
      refine ih (a :: cur) (fun x hx => hcs x (by simp [hx])) ?_ p hp c hc
      intro x hx
      rcases List.mem_cons.mp hx with h | h
      · rw [h]
        rcases hcs a (by simp) with h' | h'
        · exact h'
        · exact absurd h' ha
      · exact hcur x h

/-- C4 counterexample: a present specialties element whose text holds only
whitespace comma-separated entries yields the empty array, not null. -/
theorem extractSpecialties_empty_cex :
    extractSpecialties (some " , ") = some [] ∧
      (some ([] : List String)) ≠ none :=
  ⟨by decide, by decide⟩

/-- C4 amended: when the specialties element is present but its text holds
only empty or whitespace comma-separated entries, `extractSpecialties` returns
the empty array `[]` — null is returned only when the element is absent. -/
theorem extractSpecialties_empty_array :
    extractSpecialties none = none ∧
      ∀ raw : String, (∀ c ∈ raw.data, isJsWhitespace c = true ∨ c = ',') →
        extractSpecialties (some raw) = some [] := by
  constructor
  · rfl
  · intro raw h
    simp only [extractSpecialties, Option.some.injEq]
    have hpieces : ∀ p ∈ splitCommaAux [] (jsTrim raw.data), ∀ c ∈ p,
        isJsWhitespace c = true := by
      refine splitCommaAux_pieces_ws _ [] ?_ (by simp)
      intro c hc
      exact h c (mem_jsTrim hc)
    have hfil : ((splitCommaAux [] (jsTrim raw.data)).map jsTrim).filter
        (fun p => !p.isEmpty) = [] := by
      rw [List.filter_eq_nil_iff]
      intro a ha
      obtain ⟨p, hp, hpa⟩ := List.mem_map.mp ha
      rw [← hpa, jsTrim_eq_nil_of_ws (hpieces p hp)]
      decide
    rw [hfil]
    rfl

/-- Witness for amended C4 at a comma-and-spaces-only specialties text. -/
theorem extractSpecialties_empty_array_witness :
    extractSpecialties (some ", ,") = some [] :=
  extractSpecialties_empty_array.2 ", ," (by decide)

/-- No two adjacent characters are both whitespace. -/
def noAdjacentWs : List Char → Bool
  | [] => true
  | [_] => true
  | a :: b :: rest => !(isJsWhitespace a && isJsWhitespace b) && noAdjacentWs (b :: rest)

lemma collapseWsAux_ws_space : ∀ (cs : List Char) (b : Bool) (c : Char),
    c ∈ collapseWsAux b cs → isJsWhitespace c = true → c = ' ' := by
  intro cs
  induction cs with
  | nil => intro b c hc; simp [collapseWsAux] at hc
  | cons a cs ih =>
    intro b c hc hws
    simp only [collapseWsAux] at hc
    split at hc
    · split at hc
      · exact ih true c hc hws
      · rcases List.mem_cons.mp hc with h | h
        · exact h
        · exact ih true c h hws
    next ha =>
      rcases List.mem_cons.mp hc with h | h
      · rw [h] at hws
        exact absurd hws (by simpa using ha)
      · exact ih false c h hws

lemma collapseWsAux_true_head : ∀ (cs : List Char) (c : Char) (rest : List Char),
    collapseWsAux true cs = c :: rest → isJsWhitespace c = false := by
  intro cs
  induction cs with
  | nil => intro c rest h; simp [collapseWsAux] at h
  | cons a cs ih =>
    intro c rest h
    simp only [collapseWsAux] at h
    split at h
    · exact ih c rest h
    next ha =>
      cases h
      simpa using ha

lemma collapseWsAux_noAdj : ∀ (cs : List Char) (b : Bool),
    noAdjacentWs (collapseWsAux b cs) = true := by
  intro cs
  induction cs with
  | nil => intro b; rfl
  | cons a cs ih =>
    intro b
    simp only [collapseWsAux]
    split
    next ha =>
      split
      · exact ih true
      · cases hr : collapseWsAux true cs with
        | nil => rfl
        | cons d t =>
          have hd := collapseWsAux_true_head cs d t hr
          have := ih true
          rw [hr] at this
          simp [noAdjacentWs, hd, this]
    next ha =>
      cases hr : collapseWsAux false cs with
      | nil => rfl
      | cons d t =>
        have := ih false
        rw [hr] at this
        simp only [Bool.not_eq_true] at ha
        simp [noAdjacentWs, ha, this]

lemma collapseWsAux_cons (b : Bool) (c : Char) (cs : List Char) :
    collapseWsAux b (c :: cs) =
      if isJsWhitespace c then
        (if b then collapseWsAux true cs else ' ' :: collapseWsAux true cs)
      else c :: collapseWsAux false cs := rfl

lemma collapseWsAux_getLast : ∀ (cs : List Char) (b : Bool) (z : Char),
    cs.getLast? = some z → isJsWhitespace z = false →
    (collapseWsAux b cs).getLast? = some z := by
  intro cs
  induction cs with
  | nil => intro b z h; simp at h
  | cons a cs ih =>
    intro b z hz hws
    cases cs with
    | nil =>
      simp only [List.getLast?_singleton, Option.some.injEq] at hz
      subst hz
      rw [collapseWsAux_cons, if_neg (by simp [hws])]
      rfl
    | cons d cs' =>
      rw [List.getLast?_cons_cons] at hz
      rw [collapseWsAux_cons]
      split
      · split
        · exact ih true z hz hws
        · have hin := ih true z hz hws
          cases hr : collapseWsAux true (d :: cs') with
          | nil => rw [hr] at hin; simp at hin
          | cons e t =>
            rw [hr] at hin
            rw [List.getLast?_cons_cons]
            exact hin
      · have hin := ih false z hz hws
        cases hr : collapseWsAux false (d :: cs') with
        | nil => rw [hr] at hin; simp at hin
        | cons e t =>
          rw [hr] at hin
          rw [List.getLast?_cons_cons]
          exact hin

lemma collapseWsAux_filter : ∀ (cs : List Char) (b : Bool),
    (collapseWsAux b cs).filter (fun c => !isJsWhitespace c) =
      cs.filter (fun c => !isJsWhitespace c) := by
  intro cs
  induction cs with
  | nil => intro b; rfl
  | cons a cs ih =>
    intro b
    simp only [collapseWsAux]
    split
    next ha =>
      split
      · rw [ih true]
        simp [List.filter_cons, ha]
      · rw [List.filter_cons, List.filter_cons]
        simp only [ha]
        have hsp : isJsWhitespace ' ' = true := by decide
        simp only [hsp]
        exact ih true
    next ha =>
      simp only [Bool.not_eq_true] at ha
      rw [List.filter_cons, List.filter_cons]
      simp only [ha]
      simpa using ih false

lemma dropWhile_head_not (p : Char → Bool) : ∀ (l : List Char) (c : Char),
    (l.dropWhile p).head? = some c → p c = false := by
  intro l
  induction l with
  | nil => intro c h; simp at h
  | cons a l ih =>
    intro c h
    rw [List.dropWhile_cons] at h
    split at h
    · exact ih c h
    next ha =>
      simp only [List.head?_cons, Option.some.injEq] at h
      subst h
      simpa using ha

lemma dropWhile_getLast (p : Char → Bool) : ∀ (l : List Char),
    l.dropWhile p ≠ [] → (l.dropWhile p).getLast? = l.getLast? := by
  intro l
  induction l with
  | nil => intro h; simp at h
  | cons a l ih =>
    intro h
    rw [List.dropWhile_cons] at h ⊢
    split
    next ha =>
      rw [if_pos ha] at h
      have hl : l ≠ [] := by
        intro he
        rw [he] at h
        exact h rfl
      cases l with
      | nil => exact absurd rfl hl
      | cons d l' => rw [ih h, List.getLast?_cons_cons]
    · rfl

lemma filter_dropWhile_ws : ∀ (l : List Char),
    (l.dropWhile isJsWhitespace).filter (fun c => !isJsWhitespace c) =
      l.filter (fun c => !isJsWhitespace c) := by
  intro l
  induction l with
  | nil => rfl
  | cons a l ih =>
    rw [List.dropWhile_cons]
    split
    next ha =>
      rw [ih, List.filter_cons]
      simp [ha]
    · rfl

lemma jsTrim_filter (l : List Char) :
    (jsTrim l).filter (fun c => !isJsWhitespace c) =
      l.filter (fun c => !isJsWhitespace c) := by
  unfold jsTrim
  rw [List.filter_reverse, filter_dropWhile_ws, List.filter_reverse,
    List.reverse_reverse, filter_dropWhile_ws]

lemma jsTrim_getLast_not_ws (l : List Char) (z : Char)
    (h : (jsTrim l).getLast? = some z) : isJsWhitespace z = false := by
  unfold jsTrim at h
  rw [List.getLast?_reverse] at h
  exact dropWhile_head_not _ _ _ h

lemma jsTrim_head_not_ws (l : List Char) (z : Char)
    (h : (jsTrim l).head? = some z) : isJsWhitespace z = false := by
  unfold jsTrim at h
  rw [List.head?_reverse] at h
  have hne : (List.dropWhile isJsWhitespace (List.dropWhile isJsWhitespace l).reverse) ≠ [] := by
    intro he
    rw [he] at h
    simp at h
  rw [dropWhile_getLast _ _ hne, List.getLast?_reverse] at h
  exact dropWhile_head_not _ _ _ h

/-- The shape guaranteed for a non-null `cleanText` result relative to its
source: non-empty, all whitespace normalized to single spaces, no leading or
trailing whitespace, no two adjacent whitespace characters, and the same
non-whitespace characters in the same order as the source. -/
def cleanShape (src out : List Char) : Prop :=
  out ≠ [] ∧
  (∀ c ∈ out, isJsWhitespace c = true → c = ' ') ∧
  noAdjacentWs out = true ∧
  (∀ c, out.head? = some c → isJsWhitespace c = false) ∧
  (∀ c, out.getLast? = some c → isJsWhitespace c = false) ∧
  out.filter (fun c => !isJsWhitespace c) = src.filter (fun c => !isJsWhitespace c)

/-- C8: `cleanText` returns null for null, empty and whitespace-only input;
for every other string it returns a non-null result that is trimmed, has all
internal whitespace runs (newlines and tabs included) collapsed to single
spaces, and preserves the non-whitespace content; in particular the spec's
four concrete examples hold. -/
theorem cleanText_spec :
    cleanText none = none ∧
    cleanText (some "") = none ∧
    cleanText (some "   ") = none ∧
    cleanText (some "  a   b ") = some "a b" ∧
    (∀ s : String, s.data.all isJsWhitespace = true → cleanText (some s) = none) ∧
    (∀ s t : String, cleanText (some s) = some t → cleanShape s.data t.data) := by
  refine ⟨rfl, by decide, by decide, by decide, ?_, ?_⟩
  · intro s hs
    by_cases he : s = ""
    · simp [cleanText, he]
    · have htr : jsTrim s.data = [] :=
        jsTrim_eq_nil_of_ws (List.all_eq_true.mp hs)
      simp [cleanText, he, collapseWs, htr, collapseWsAux]
  · intro s t h
    simp only [cleanText] at h
    split at h
    · exact nomatch h
    · split at h
      · exact nomatch h
      next hne =>
        cases h
        have hout : (String.mk (collapseWs (jsTrim s.data))).data =
            collapseWs (jsTrim s.data) := rfl
        rw [hout]
        have hnil : collapseWs (jsTrim s.data) ≠ [] := by
          intro he
          rw [← List.isEmpty_iff] at he
          exact hne he
        refine ⟨hnil, ?_, collapseWsAux_noAdj _ _, ?_, ?_, ?_⟩
        · intro c hc hws
          exact collapseWsAux_ws_space _ _ _ hc hws
        · intro c hc
          unfold collapseWs at hc
          cases htr : jsTrim s.data with
          | nil => rw [htr] at hc; simp [collapseWsAux] at hc
          | cons d rest =>
            have hd : isJsWhitespace d = false :=
              jsTrim_head_not_ws s.data d (by rw [htr]; rfl)
            rw [htr] at hc
            simp only [collapseWsAux, hd, Bool.false_eq_true, if_false,
              List.head?_cons, Option.some.injEq] at hc
            rw [← hc]
            exact hd
        · intro c hc
          have htrne : jsTrim s.data ≠ [] := by
            intro he
            apply hnil
            rw [he]
            rfl
          cases hz : (jsTrim s.data).getLast? with
          | none => exact absurd (List.getLast?_eq_none_iff.mp hz) htrne
          | some z =>
            have hzws := jsTrim_getLast_not_ws s.data z hz
            have hlast := collapseWsAux_getLast (jsTrim s.data) false z hz hzws
            unfold collapseWs at hc
            rw [hlast] at hc
            cases hc
            exact hzws
        · rw [collapseWs, collapseWsAux_filter, jsTrim_filter]

/-- Witness for C8: the general shape part applied to a string with an
internal tab-and-newline run. -/
theorem cleanText_spec_witness :
    cleanShape ("x \t\n y".data) ("x y".data) :=
  cleanText_spec.2.2.2.2.2 "x \t\n y" "x y" (by decide)

/-- C9: every JobSummary retained by the accept filter of `searchJobs` has a
truthy (non-null, non-empty) title, company and id; a parsed record whose
company is null is never in the accepted list. -/
theorem acceptedJobs_required_fields :
    (∀ (cards : List RawCard) (j : Job), j ∈ acceptedJobs cards →
        truthy j.title = true ∧ truthy j.company = true ∧ truthy j.id = true) ∧
    (∀ (cards : List RawCard) (j : Job), j.company = none →
        j ∉ acceptedJobs cards) := by
  have main : ∀ (cards : List RawCard) (j : Job), j ∈ acceptedJobs cards →
      truthy j.title = true ∧ truthy j.company = true ∧ truthy j.id = true := by
    intro cards j hj
    unfold acceptedJobs at hj
    have hj2 := List.Sublist.mem hj (List.take_sublist _ _)
    have hpred := (List.mem_filter.mp hj2).2
    rw [Bool.and_eq_true, Bool.and_eq_true] at hpred
    exact ⟨hpred.1.1, hpred.1.2, hpred.2⟩
  refine ⟨main, ?_⟩
  intro cards j hc hj
  have h := (main cards j hj).2.1
  rw [hc] at h
  exact absurd h (by decide)

/-- A concrete listing card whose parsed record passes the accept filter. -/
def sampleCard : RawCard :=
  { dataId := some "urn:li:jobPosting:3796675744"
    rawTitle := " Software Engineer "
    rawCompany := "Acme Corp"
    rawLocation := "Berlin"
    rawDateAttr := some "2024-05-01"
    rawDateText := ""
    rawLink := some "/jobs/view/software-engineer-at-acme-3796675744"
    rawCompanyLink := some "https://www.linkedin.com/company/acme?trk=x"
    rawLogoDelayed := none
    rawLogoSrc := none
    hasEasyApply := false
    rawInsights := ""
    uuid := "u-1" }

/-- Witness for C9: a concrete accepted card has truthy title, company and
id. -/
theorem acceptedJobs_required_fields_witness :
    truthy (parseJobElement sampleCard).title = true ∧
      truthy (parseJobElement sampleCard).company = true ∧
      truthy (parseJobElement sampleCard).id = true :=
  acceptedJobs_required_fields.1 [sampleCard] (parseJobElement sampleCard)
    (by decide)

end Scraper
